import Mathlib

/-
Verification of the Kalman-filter pairs-trading repository.

The development shallowly embeds the numerical core of the repository in
Lean 4 over exact rational arithmetic:
  * `KalmanFilter` / `RollingKalmanFilter` embed `src/kalman_filter.py`;
  * `simStep` / `run_kalman_backtest_log` embed the trading loop of
    `src/backtest.py` (steps 2-7, the loop over the post-warm-up rows);
  * `evaluate` embeds `src/evaluator.py`.
Machine floats are modelled by `ℚ`; a numpy division whose denominator is
zero follows Lean's convention `q / 0 = 0` (the python code raises no
exception there, it silently produces non-finite values).
-/

namespace KalmanRepo

/-- A length-2 rational vector, standing for the numpy arrays of shape (2,)
used by the filters (`beta` and the feature vector `[1, x]`). -/
structure Vec2 where
  x0 : ℚ
  x1 : ℚ
deriving Repr, DecidableEq

/-- A 2x2 rational matrix, row major: `a b / c d`.  Stands for the numpy
arrays of shape (2,2) used for the covariance `P` and process noise `Vw`. -/
structure Mat2 where
  a : ℚ
  b : ℚ
  c : ℚ
  d : ℚ
deriving Repr, DecidableEq

/-- Dot product of two 2-vectors (`np.dot` on shape-(2,) arrays). -/
def Vec2.dot (v w : Vec2) : ℚ :=
  v.x0 * w.x0 + v.x1 * w.x1

/-- Scalar multiple of a 2-vector. -/
def Vec2.smul (q : ℚ) (v : Vec2) : Vec2 :=
  ⟨q * v.x0, q * v.x1⟩

/-- Componentwise sum of two 2-vectors. -/
def Vec2.add (v w : Vec2) : Vec2 :=
  ⟨v.x0 + w.x0, v.x1 + w.x1⟩

/-- Outer product `np.outer(v, w)` of two 2-vectors. -/
def Vec2.outer (v w : Vec2) : Mat2 :=
  ⟨v.x0 * w.x0, v.x0 * w.x1, v.x1 * w.x0, v.x1 * w.x1⟩

/-- Matrix-vector product `np.dot(M, v)`. -/
def Mat2.matVec (M : Mat2) (v : Vec2) : Vec2 :=
  ⟨M.a * v.x0 + M.b * v.x1, M.c * v.x0 + M.d * v.x1⟩

/-- Vector-matrix product `np.dot(v, M)` (row vector times matrix). -/
def Mat2.vecMat (v : Vec2) (M : Mat2) : Vec2 :=
  ⟨v.x0 * M.a + v.x1 * M.c, v.x0 * M.b + v.x1 * M.d⟩

/-- Entrywise sum of two 2x2 matrices. -/
def Mat2.add (M N : Mat2) : Mat2 :=
  ⟨M.a + N.a, M.b + N.b, M.c + N.c, M.d + N.d⟩

/-- Entrywise difference of two 2x2 matrices. -/
def Mat2.sub (M N : Mat2) : Mat2 :=
  ⟨M.a - N.a, M.b - N.b, M.c - N.c, M.d - N.d⟩

/-- Numpy broadcast `M + r` of a scalar onto a 2x2 matrix: the scalar is
added to every entry (this is what `self.P ... + self.R` does in
`KalmanFilter.update`). -/
def Mat2.addScalar (M : Mat2) (q : ℚ) : Mat2 :=
  ⟨M.a + q, M.b + q, M.c + q, M.d + q⟩

/-- Scalar multiple of a 2x2 matrix. -/
def Mat2.smulM (q : ℚ) (M : Mat2) : Mat2 :=
  ⟨q * M.a, q * M.b, q * M.c, q * M.d⟩

/-- The 2x2 identity matrix `np.eye(2)`. -/
def Mat2.identity : Mat2 :=
  ⟨1, 0, 0, 1⟩

/-- State of the continuous (standard) Kalman filter of
`src/kalman_filter.py`: attributes `delta`, `R`, `beta`, `P`, `Vw`, `Ve`. -/
structure KalmanFilter where
  delta : ℚ
  R : ℚ
  beta : Vec2
  P : Mat2
  Vw : Mat2
  Ve : ℚ
deriving Repr, DecidableEq

/-- Embedding of `KalmanFilter.reset` (also what `__init__` does):
`beta = [0,0]`, `P = I`, `Vw = delta/(1-delta) * I`, `Ve = R`. -/
def KalmanFilter.reset (delta R : ℚ) : KalmanFilter :=
  ⟨delta, R, ⟨0, 0⟩, Mat2.identity, Mat2.smulM (delta / (1 - delta)) Mat2.identity, R⟩

/-- Embedding of `KalmanFilter.update(y, x)`: with `x_vec = [1, x]`,
`y_hat = beta . x_vec`, `e = y - y_hat`, `P_x = P . x_vec`,
`K = P_x / (x_vec . P_x + Ve)`, `beta += K * e`,
`P = P - outer(K, x_vec . P) + R` (scalar `R` broadcast onto every entry).
Returns the new state together with `(y_hat, e)`. -/
def KalmanFilter.update (s : KalmanFilter) (y x : ℚ) : KalmanFilter × ℚ × ℚ :=
  let xv : Vec2 := ⟨1, x⟩
  let y_hat := Vec2.dot s.beta xv
  let e := y - y_hat
  let P_x := Mat2.matVec s.P xv
  let K := Vec2.smul (1 / (Vec2.dot xv P_x + s.Ve)) P_x
  let beta1 := Vec2.add s.beta (Vec2.smul e K)
  let P1 := Mat2.addScalar (Mat2.sub s.P (Vec2.outer K (Mat2.vecMat xv s.P))) s.R
  (⟨s.delta, s.R, beta1, P1, s.Vw, s.Ve⟩, y_hat, e)

/-- State of the rolling (windowed) Kalman filter of `src/kalman_filter.py`:
attributes `window`, `delta`, `R`, `beta`, `P`, `Vw`, `Ve`,
`spread_history`. -/
structure RollingKalmanFilter where
  window : ℕ
  delta : ℚ
  R : ℚ
  beta : Vec2
  P : Mat2
  Vw : Mat2
  Ve : ℚ
  spread_history : List ℚ
deriving Repr, DecidableEq

/-- Embedding of `RollingKalmanFilter.reset`: `beta = [0,0]`, `P = I`,
`Vw = delta/(1-delta) * I`, `Ve = R`, `spread_history = []`. -/
def RollingKalmanFilter.reset (window : ℕ) (delta R : ℚ) : RollingKalmanFilter :=
  ⟨window, delta, R, ⟨0, 0⟩, Mat2.identity,
    Mat2.smulM (delta / (1 - delta)) Mat2.identity, R, []⟩

/-- Embedding of `RollingKalmanFilter.update(y, x)`: predict
`P = P + Vw`, `yhat = beta . x_vec`, `e = y - yhat`; update
`S = x_vec . P . x_vec + Ve`, `K = P . x_vec / S`, `beta = beta + K * e`,
`P = P - outer(K, x_vec . P)`; append `e` to `spread_history` and reset the
whole state when the history length exceeds `window`.  Returns the new
state together with `(yhat, e)`. -/
def RollingKalmanFilter.update (s : RollingKalmanFilter) (y x : ℚ) :
    RollingKalmanFilter × ℚ × ℚ :=
  let xv : Vec2 := ⟨1, x⟩
  let Pp := Mat2.add s.P s.Vw
  let yhat := Vec2.dot s.beta xv
  let e := y - yhat
  let S := Vec2.dot (Mat2.vecMat xv Pp) xv + s.Ve
  let K := Vec2.smul (1 / S) (Mat2.matVec Pp xv)
  let beta1 := Vec2.add s.beta (Vec2.smul e K)
  let P1 := Mat2.sub Pp (Vec2.outer K (Mat2.vecMat xv Pp))
  let hist := s.spread_history ++ [e]
  let s1 : RollingKalmanFilter :=
    if s.window < hist.length then RollingKalmanFilter.reset s.window s.delta s.R
    else ⟨s.window, s.delta, s.R, beta1, P1, s.Vw, s.Ve, hist⟩
  (s1, yhat, e)

/-- Fold a list of observations `(y, x)` through the continuous filter,
collecting the `(y_hat, e)` outputs in order. -/
def runKF : KalmanFilter → List (ℚ × ℚ) → KalmanFilter × List (ℚ × ℚ)
  | s, [] => (s, [])
  | s, o :: rest =>
    let r := KalmanFilter.update s o.1 o.2
    let t := runKF r.1 rest
    (t.1, (r.2.1, r.2.2) :: t.2)

/-- Fold a list of observations `(y, x)` through the rolling filter,
keeping only the final state. -/
def runRolling : RollingKalmanFilter → List (ℚ × ℚ) → RollingKalmanFilter
  | s, [] => s
  | s, o :: rest => runRolling (RollingKalmanFilter.update s o.1 o.2).1 rest

/-- A row of the dataframe after the Kalman/z-score stage of
`run_kalman_backtest` (`src/backtest.py`): columns `btc_3m`, `btc_perp`,
`spread`, `hedge_ratio`, `zscore`.  The list of rows handed to the trading
loop is the dataframe after `dropna` (the post-warm-up sequence). -/
structure Row where
  btc_3m : ℚ
  btc_perp : ℚ
  spread : ℚ
  hedge_ratio : ℚ
  zscore : ℚ
deriving Repr, DecidableEq

/-- Position of the trading state machine; the python code uses the ints
0 (no position), 1 (long), -1 (short). -/
inductive Position where
  | flat : Position
  | long : Position
  | short : Position
deriving Repr, DecidableEq

/-- The record appended to `trade_log` each (eligible) step of
`run_kalman_backtest`. -/
structure TradeLogEntry where
  position : Position
  zscore : ℚ
  spread : ℚ
  hedge_ratio : ℚ
  realized_pnl : ℚ
  unrealized_pnl : ℚ
  equity : ℚ
  entry_signal : Bool
  exit_signal : Bool
deriving Repr, DecidableEq

/-- Mutable state of the trading loop of `run_kalman_backtest`:
`position`, `equity`, the three entry variables, and the accumulated
`trade_log`. -/
structure SimState where
  position : Position
  equity : ℚ
  entry_price_3m : ℚ
  entry_price_perp : ℚ
  entry_hedge_ratio : ℚ
  trade_log : List TradeLogEntry
deriving Repr, DecidableEq

/-- Eligibility test of Step 3 of `run_kalman_backtest`: the step is
skipped (`continue`) when `beta_1 <= 0 or abs(beta_1) < 0.05`. -/
def eligibleB (r : Row) : Bool :=
  !(decide (r.hedge_ratio ≤ 0) || decide (|r.hedge_ratio| < 5 / 100))

/-- One iteration of the trading loop of `run_kalman_backtest`
(Steps 3 - 7): skip ineligible rows entirely; otherwise evaluate the
entry/exit state machine, update equity on exit, and append exactly one
`TradeLogEntry`. -/
def simStep (z_entry z_exit trade_notional : ℚ) (s : SimState) (r : Row) : SimState :=
  if r.hedge_ratio ≤ 0 ∨ |r.hedge_ratio| < 5 / 100 then s
  else
    match s.position with
    | Position.flat =>
      if r.zscore < -z_entry then
        ⟨Position.long, s.equity, r.btc_3m, r.btc_perp, r.hedge_ratio,
          s.trade_log ++ [⟨Position.long, r.zscore, r.spread, r.hedge_ratio,
            0, 0, s.equity, true, false⟩]⟩
      else if r.zscore > z_entry then
        ⟨Position.short, s.equity, r.btc_3m, r.btc_perp, r.hedge_ratio,
          s.trade_log ++ [⟨Position.short, r.zscore, r.spread, r.hedge_ratio,
            0, 0, s.equity, true, false⟩]⟩
      else
        ⟨Position.flat, s.equity, s.entry_price_3m, s.entry_price_perp,
          s.entry_hedge_ratio,
          s.trade_log ++ [⟨Position.flat, r.zscore, r.spread, r.hedge_ratio,
            0, 0, s.equity, false, false⟩]⟩
    | Position.long =>
      let long_qty := trade_notional / s.entry_price_3m
      let short_qty := trade_notional * s.entry_hedge_ratio / s.entry_price_perp
      let upnl := long_qty * (r.btc_3m - s.entry_price_3m) +
        short_qty * (s.entry_price_perp - r.btc_perp)
      if r.zscore < z_exit then
        ⟨Position.flat, s.equity + upnl, s.entry_price_3m, s.entry_price_perp,
          s.entry_hedge_ratio,
          s.trade_log ++ [⟨Position.flat, r.zscore, r.spread, r.hedge_ratio,
            upnl, 0, s.equity + upnl, false, true⟩]⟩
      else
        ⟨Position.long, s.equity, s.entry_price_3m, s.entry_price_perp,
          s.entry_hedge_ratio,
          s.trade_log ++ [⟨Position.long, r.zscore, r.spread, r.hedge_ratio,
            0, upnl, s.equity, false, false⟩]⟩
    | Position.short =>
      let short_qty := trade_notional / s.entry_price_3m
      let long_qty := trade_notional * s.entry_hedge_ratio / s.entry_price_perp
      let upnl := short_qty * (s.entry_price_3m - r.btc_3m) +
        long_qty * (r.btc_perp - s.entry_price_perp)
      if r.zscore > -z_exit then
        ⟨Position.flat, s.equity + upnl, s.entry_price_3m, s.entry_price_perp,
          s.entry_hedge_ratio,
          s.trade_log ++ [⟨Position.flat, r.zscore, r.spread, r.hedge_ratio,
            upnl, 0, s.equity + upnl, false, true⟩]⟩
      else
        ⟨Position.short, s.equity, s.entry_price_3m, s.entry_price_perp,
          s.entry_hedge_ratio,
          s.trade_log ++ [⟨Position.short, r.zscore, r.spread, r.hedge_ratio,
            0, upnl, s.equity, false, false⟩]⟩

/-- Initial trading state of `run_kalman_backtest`: no position, equity is
`initial_capital`, entry prices 0, entry hedge ratio 1, empty log. -/
def initSimState (initial_capital : ℚ) : SimState :=
  ⟨Position.flat, initial_capital, 0, 0, 1, []⟩

/-- The trading loop of `run_kalman_backtest` over the post-warm-up rows:
python iterates `for i in range(1, len(df))`, i.e. over every row except
the first, folding `simStep`. -/
def run_kalman_backtest_log (z_entry z_exit initial_capital trade_notional : ℚ)
    (rows : List Row) : SimState :=
  (rows.drop 1).foldl (simStep z_entry z_exit trade_notional)
    (initSimState initial_capital)

/-- Sum of a list of rationals. -/
def qSum : List ℚ → ℚ
  | [] => 0
  | p :: t => p + qSum t

/-- Mean of a list of rationals (`pandas.Series.mean`); the empty case is
never reached by `evaluate` (it bails out first). -/
def qMean (l : List ℚ) : ℚ :=
  qSum l / (l.length : ℚ)

/-- Sample variance with one delta degree of freedom, the square of
`pandas.Series.std` (which uses `ddof=1`).  Only meaningful for lists of
length at least 2; pandas returns NaN below that, which `evaluate` routes
through its zero branch. -/
def sampleVar (l : List ℚ) : ℚ :=
  qSum (l.map fun p => (p - qMean l) ^ 2) / ((l.length : ℚ) - 1)

/-- Cumulative sums of a list starting from `acc`
(`first_equity + pnl.cumsum()` in `evaluate`). -/
def cumsumFrom (acc : ℚ) : List ℚ → List ℚ
  | [] => []
  | p :: t => (acc + p) :: cumsumFrom (acc + p) t

/-- Running-peak drawdown accumulator: `peak` is the running maximum so
far, `best` the largest `peak - value` seen so far. -/
def maxDrawdownAux (peak best : ℚ) : List ℚ → ℚ
  | [] => best
  | e :: t => maxDrawdownAux (max peak e) (max best (max peak e - e)) t

/-- The pandas expression `(equity.cummax() - equity).max()` over a
nonempty equity series. -/
def maxDrawdownOf : List ℚ → ℚ
  | [] => 0
  | e :: t => maxDrawdownAux e 0 t

/-- Result record of `evaluate` (`src/evaluator.py`).  The Sharpe ratio
`pnl.mean() / pnl.std() * sqrt(252)` is irrational in general, so it is
recorded as `sharpeSignedSq`, its signed square
`sign(sharpe) * sharpe^2 = mean * |mean| * 252 / variance` (and `0` on the
code's zero branch); the code's Sharpe ratio is zero exactly when
`sharpeSignedSq` is zero, and the map is strictly monotone. -/
structure Metrics where
  totalReturn : ℚ
  sharpeSignedSq : ℚ
  maxDrawdown : ℚ
  numTrades : ℕ
  avgTradePnl : ℚ
deriving Repr, DecidableEq

/-- Embedding of `evaluate(trade_log, initial_equity=1.0)`:
`pnl = realized_pnl + unrealized_pnl`, `equity = equity.iloc[0] + pnl.cumsum()`,
`total_return = equity.iloc[-1] - equity.iloc[0]`,
`sharpe = mean/std*sqrt(252) if pnl.std() > 0 else 0` (`std` uses `ddof=1`,
so it is NaN — hence not `> 0` — for fewer than two rows),
`max_drawdown = (equity.cummax() - equity).max()`, trade count, mean pnl.
On an empty log `trade_log["equity"].iloc[0]` raises `IndexError`, which
the embedding renders as `none`.  The `initial_equity` parameter is unused
by the python body and is kept only for signature fidelity. -/
def evaluate (log : List TradeLogEntry) (_initial_equity : ℚ) : Option Metrics :=
  match log with
  | [] => none
  | first :: rest =>
    let pnl := (first :: rest).map fun r => r.realized_pnl + r.unrealized_pnl
    let equitySeries := cumsumFrom first.equity pnl
    let lastEq := (List.getLast (first :: rest) (List.cons_ne_nil first rest)).equity
    let n := (first :: rest).length
    let m := qMean pnl
    let sv := sampleVar pnl
    let sharpe := if 2 ≤ n ∧ 0 < sv then m * |m| * 252 / sv else 0
    some ⟨lastEq - first.equity, sharpe, maxDrawdownOf equitySeries, n, m⟩

/-- The Kalman gain exactly as the spec words it:
`covariance . feature / (feature . covariance . feature + measurement_noise)`
with feature vector `[1, x]`.  This is the spec-side definition used to
state the refinement claim about `KalmanFilter.update`. -/
def specKalmanGain (covariance : Mat2) (x measurement_noise : ℚ) : Vec2 :=
  Vec2.smul
    (1 / (Vec2.dot ⟨1, x⟩ (Mat2.matVec covariance ⟨1, x⟩) + measurement_noise))
    (Mat2.matVec covariance ⟨1, x⟩)

/-- C2: for every `update(y, x)` of the continuous estimator the prediction
is `beta . [1,x]`, the residual is `y` minus that, the gain is the spec's
`P.[1,x] / ([1,x].P.[1,x] + measurement_noise)`, the new beta is
`beta + K*e`, and the new covariance is `P - outer(K, [1,x].P)` with the
measurement noise `R` folded directly into the adjustment (broadcast onto
every entry); the gain is computed from the pre-call `P` with no
predict-step process-noise inflation (`Vw` is never consulted, last
conjunct). -/
theorem C2_continuous_update_equations (s : KalmanFilter) (y x : ℚ)
    (hVe : s.Ve = s.R) :
    (KalmanFilter.update s y x).2.1 = Vec2.dot s.beta ⟨1, x⟩ ∧
    (KalmanFilter.update s y x).2.2 = y - Vec2.dot s.beta ⟨1, x⟩ ∧
    (KalmanFilter.update s y x).1.beta =
      Vec2.add s.beta
        (Vec2.smul (y - Vec2.dot s.beta ⟨1, x⟩) (specKalmanGain s.P x s.R)) ∧
    (KalmanFilter.update s y x).1.P =
      Mat2.addScalar
        (Mat2.sub s.P
          (Vec2.outer (specKalmanGain s.P x s.R) (Mat2.vecMat ⟨1, x⟩ s.P))) s.R ∧
    (KalmanFilter.update s y x).1.Vw = s.Vw := by
  refine ⟨rfl, rfl, ?_, ?_, rfl⟩ <;>
    simp [KalmanFilter.update, specKalmanGain, hVe]

/-- Witness for C2 at the freshly reset filter with `delta = 1/100`,
`R = 1/1000` and observation `(y, x) = (2, 3)`. -/
theorem C2_witness :
    (KalmanFilter.update (KalmanFilter.reset (1/100) (1/1000)) 2 3).1.beta =
      Vec2.add (KalmanFilter.reset (1/100) (1/1000)).beta
        (Vec2.smul
          (2 - Vec2.dot (KalmanFilter.reset (1/100) (1/1000)).beta ⟨1, 3⟩)
          (specKalmanGain (KalmanFilter.reset (1/100) (1/1000)).P 3
            (KalmanFilter.reset (1/100) (1/1000)).R)) :=
  (C2_continuous_update_equations (KalmanFilter.reset (1/100) (1/1000)) 2 3 rfl).2.2.1

/-- C4: a step whose hedge ratio is non-positive or smaller than 0.05 in
magnitude is skipped entirely by the trading loop: the whole simulator
state - position, equity, entry data and the trade log (hence any open
position's mark-to-market) - is left unchanged. -/
theorem C4_ineligible_step_skipped (ze zx tn : ℚ) (s : SimState) (r : Row)
    (h : r.hedge_ratio ≤ 0 ∨ |r.hedge_ratio| < 5 / 100) :
    simStep ze zx tn s r = s := by
  simp [simStep, h]

/-- Witness for C4: a row with hedge ratio `-1` leaves the initial state
untouched. -/
theorem C4_witness :
    simStep (8/10) (8/10) 100000 (initSimState 100000) ⟨100, 100, 0, -1, 3⟩ =
      initSimState 100000 :=
  C4_ineligible_step_skipped (8/10) (8/10) 100000 (initSimState 100000)
    ⟨100, 100, 0, -1, 3⟩ (Or.inl (by norm_num))

/-- One `update` call of the continuous filter reads only `beta`, `P`,
`Ve` and `R` of the state: states agreeing on those agree on them after
the call and produce the same `(y_hat, e)`. -/
lemma update_core_congr (s t : KalmanFilter) (y x : ℚ)
    (hb : s.beta = t.beta) (hP : s.P = t.P) (hVe : s.Ve = t.Ve)
    (hR : s.R = t.R) :
    (KalmanFilter.update s y x).1.beta = (KalmanFilter.update t y x).1.beta ∧
    (KalmanFilter.update s y x).1.P = (KalmanFilter.update t y x).1.P ∧
    (KalmanFilter.update s y x).1.Ve = (KalmanFilter.update t y x).1.Ve ∧
    (KalmanFilter.update s y x).1.R = (KalmanFilter.update t y x).1.R ∧
    (KalmanFilter.update s y x).2 = (KalmanFilter.update t y x).2 := by
  refine ⟨?_, ?_, hVe, hR, ?_⟩ <;> simp [KalmanFilter.update, hb, hP, hVe, hR]

/-- Folding any observation list through two continuous-filter states that
agree on `beta`, `P`, `Ve`, `R` yields states agreeing on those fields and
identical output streams. -/
lemma runKF_congr : ∀ (obs : List (ℚ × ℚ)) (s t : KalmanFilter),
    s.beta = t.beta → s.P = t.P → s.Ve = t.Ve → s.R = t.R →
    (runKF s obs).1.beta = (runKF t obs).1.beta ∧
    (runKF s obs).1.P = (runKF t obs).1.P ∧
    (runKF s obs).1.Ve = (runKF t obs).1.Ve ∧
    (runKF s obs).1.R = (runKF t obs).1.R ∧
    (runKF s obs).2 = (runKF t obs).2
  | [], s, t, hb, hP, hVe, hR => ⟨hb, hP, hVe, hR, rfl⟩
  | o :: rest, s, t, hb, hP, hVe, hR => by
    obtain ⟨ub, uP, uVe, uR, uout⟩ := update_core_congr s t o.1 o.2 hb hP hVe hR
    obtain ⟨ih1, ih2, ih3, ih4, ih5⟩ :=
      runKF_congr rest (KalmanFilter.update s o.1 o.2).1
        (KalmanFilter.update t o.1 o.2).1 ub uP uVe uR
    refine ⟨?_, ?_, ?_, ?_, ?_⟩ <;>
      simp only [runKF, ih1, ih2, ih3, ih4, ih5, uout]

/-- C10: the continuous estimator's observable behaviour is independent of
`delta`: two freshly reset filters with the same `R` but arbitrary
`delta` values produce, on any observation sequence, identical `beta`,
identical covariance and identical `(y_hat, residual)` output streams -
the process-noise matrix `Vw` computed at reset is never consulted by
`update`. -/
theorem C10_delta_independence (d1 d2 R : ℚ) (obs : List (ℚ × ℚ)) :
    (runKF (KalmanFilter.reset d1 R) obs).1.beta =
      (runKF (KalmanFilter.reset d2 R) obs).1.beta ∧
    (runKF (KalmanFilter.reset d1 R) obs).1.P =
      (runKF (KalmanFilter.reset d2 R) obs).1.P ∧
    (runKF (KalmanFilter.reset d1 R) obs).2 =
      (runKF (KalmanFilter.reset d2 R) obs).2 := by
  obtain ⟨h1, h2, _, _, h5⟩ :=
    runKF_congr obs (KalmanFilter.reset d1 R) (KalmanFilter.reset d2 R)
      rfl rfl rfl rfl
  exact ⟨h1, h2, h5⟩

/-- One loop iteration appends exactly one trade-log entry when the row is
eligible and none when it is skipped. -/
lemma simStep_log_length (ze zx tn : ℚ) (s : SimState) (r : Row) :
    (simStep ze zx tn s r).trade_log.length =
      s.trade_log.length + (if eligibleB r then 1 else 0) := by
  by_cases h : r.hedge_ratio ≤ 0 ∨ |r.hedge_ratio| < 5 / 100
  · have he : eligibleB r = false := by
      rcases h with h | h <;> simp [eligibleB, h]
    simp [simStep, h, he]
  · have he : eligibleB r = true := by
      push_neg at h
      simp [eligibleB, h.1, h.2]
    rw [simStep, if_neg h, he]
    cases s.position <;> dsimp only <;> split_ifs <;> simp_all

/-- Folding the trading loop over a row list grows the log by exactly the
number of eligible rows. -/
lemma foldl_simStep_log_length (ze zx tn : ℚ) : ∀ (rows : List Row) (s : SimState),
    ((rows.foldl (simStep ze zx tn) s).trade_log.length =
      s.trade_log.length + (rows.filter eligibleB).length)
  | [], s => by simp
  | r :: rest, s => by
    rw [List.foldl_cons, foldl_simStep_log_length ze zx tn rest,
      simStep_log_length]
    cases hr : eligibleB r <;> simp [hr] <;> omega

/-- C5 (amended): the trade log contains exactly one entry per eligible
row among the rows the loop actually iterates over - the post-warm-up
sequence minus its first row, since the python loop is
`for i in range(1, len(df))` - and no entry for any ineligible row. -/
theorem C5_log_counts_eligible_iterated_rows (ze zx cap tn : ℚ) (rows : List Row) :
    (run_kalman_backtest_log ze zx cap tn rows).trade_log.length =
      ((rows.drop 1).filter eligibleB).length := by
  rw [run_kalman_backtest_log, foldl_simStep_log_length]
  simp [initSimState]

/-- C5 counterexample: a post-warm-up sequence consisting of one single
eligible row produces an empty trade log (the loop starts at index 1), so
the log does not contain one entry per eligible step of the post-warm-up
sequence. -/
theorem C5_counterexample :
    ¬ ((run_kalman_backtest_log (8/10) (8/10) 100000 100000
          [⟨100, 100, 0, 1, 0⟩]).trade_log.length =
        (([⟨100, 100, 0, 1, 0⟩] : List Row).filter eligibleB).length) := by
  norm_num [run_kalman_backtest_log, initSimState, eligibleB, List.filter]

/-- C3: on eligible steps (and with the entry threshold nonnegative, as in
the default configuration 0.8) the state machine is exactly: Flat to Long
iff `zscore < -z_entry` (recording both entry prices and the hedge ratio),
Flat to Short iff `zscore > z_entry`, Long to Flat iff `zscore < z_exit`
(one-sided), Short to Flat iff `zscore > -z_exit`, position unchanged in
all other cases, and never a direct Long-Short flip in either direction. -/
theorem C3_transition_function (ze zx tn : ℚ) (s : SimState) (r : Row)
    (helig : eligibleB r = true) (hze : 0 ≤ ze) :
    (s.position = Position.flat →
      (((simStep ze zx tn s r).position = Position.long ↔ r.zscore < -ze) ∧
       ((simStep ze zx tn s r).position = Position.short ↔ r.zscore > ze) ∧
       (¬ r.zscore < -ze → ¬ r.zscore > ze →
         (simStep ze zx tn s r).position = Position.flat) ∧
       (r.zscore < -ze →
         (simStep ze zx tn s r).entry_price_3m = r.btc_3m ∧
         (simStep ze zx tn s r).entry_price_perp = r.btc_perp ∧
         (simStep ze zx tn s r).entry_hedge_ratio = r.hedge_ratio))) ∧
    (s.position = Position.long →
      (((simStep ze zx tn s r).position = Position.flat ↔ r.zscore < zx) ∧
       (¬ r.zscore < zx → (simStep ze zx tn s r).position = Position.long) ∧
       (simStep ze zx tn s r).position ≠ Position.short)) ∧
    (s.position = Position.short →
      (((simStep ze zx tn s r).position = Position.flat ↔ r.zscore > -zx) ∧
       (¬ r.zscore > -zx → (simStep ze zx tn s r).position = Position.short) ∧
       (simStep ze zx tn s r).position ≠ Position.long)) := by
  have h : ¬ (r.hedge_ratio ≤ 0 ∨ |r.hedge_ratio| < 5 / 100) := by
    simp only [eligibleB, Bool.not_eq_eq_eq_not, Bool.not_true,
      Bool.or_eq_false_iff, decide_eq_false_iff_not] at helig
    tauto
  rw [simStep, if_neg h]
  refine ⟨?_, ?_, ?_⟩ <;> intro hpos <;> rw [hpos] <;> dsimp only
  · constructor
    · constructor
      · intro hl
        by_contra hz
        rw [if_neg hz] at hl
        split_ifs at hl <;> simp_all
      · intro hz
        rw [if_pos hz]
    constructor
    · constructor
      · intro hs
        split_ifs at hs with h1 h2 <;> simp_all
      · intro hz
        have h1 : ¬ r.zscore < -ze := by linarith
        rw [if_neg h1, if_pos hz]
    constructor
    · intro h1 h2
      rw [if_neg h1, if_neg h2]
    · intro hz
      rw [if_pos hz]
      exact ⟨rfl, rfl, rfl⟩
  · constructor
    · constructor
      · intro hf
        by_contra hz
        rw [if_neg hz] at hf
        simp at hf
      · intro hz
        rw [if_pos hz]
    constructor
    · intro hz
      rw [if_neg hz]
    · split_ifs <;> simp
  · constructor
    · constructor
      · intro hf
        by_contra hz
        rw [if_neg hz] at hf
        simp at hf
      · intro hz
        rw [if_pos hz]
    constructor
    · intro hz
      rw [if_neg hz]
    · split_ifs <;> simp

/-- Witness for C3: with thresholds 0.8, an eligible row with z-score -1
moves the flat initial state to Long. -/
theorem C3_witness :
    (simStep (8/10) (8/10) 100000 (initSimState 100000)
      ⟨100, 100, 0, 1, -1⟩).position = Position.long := by
  have h := C3_transition_function (8/10) (8/10) 100000 (initSimState 100000)
    ⟨100, 100, 0, 1, -1⟩ (by norm_num [eligibleB]) (by norm_num)
  exact ((h.1 rfl).1).mpr (by norm_num)

/-- Both branches of the rolling update preserve the `window` field. -/
lemma update_window (s : RollingKalmanFilter) (y x : ℚ) :
    (RollingKalmanFilter.update s y x).1.window = s.window := by
  rw [RollingKalmanFilter.update]
  split_ifs <;> rfl

/-- Both branches of the rolling update preserve the `delta` field. -/
lemma update_delta (s : RollingKalmanFilter) (y x : ℚ) :
    (RollingKalmanFilter.update s y x).1.delta = s.delta := by
  rw [RollingKalmanFilter.update]
  split_ifs <;> rfl

/-- Both branches of the rolling update preserve the `R` field. -/
lemma update_R (s : RollingKalmanFilter) (y x : ℚ) :
    (RollingKalmanFilter.update s y x).1.R = s.R := by
  rw [RollingKalmanFilter.update]
  split_ifs <;> rfl

/-- When the history buffer would exceed the window, the rolling update
ends in the freshly reset state. -/
lemma update_reset_fires (s : RollingKalmanFilter) (y x : ℚ)
    (h : s.window < s.spread_history.length + 1) :
    (RollingKalmanFilter.update s y x).1 =
      RollingKalmanFilter.reset s.window s.delta s.R := by
  rw [RollingKalmanFilter.update, if_pos (by simpa using h)]

/-- When the history buffer stays within the window, the rolling update
appends the residual to the history. -/
lemma update_hist_no_reset (s : RollingKalmanFilter) (y x : ℚ)
    (h : ¬ s.window < s.spread_history.length + 1) :
    (RollingKalmanFilter.update s y x).1.spread_history =
      s.spread_history ++ [y - Vec2.dot s.beta ⟨1, x⟩] := by
  rw [RollingKalmanFilter.update, if_neg (by simpa using h)]

/-- Running the rolling filter until the history buffer would exceed the
window lands exactly on the freshly reset state. -/
lemma runRolling_to_reset (obs : List (ℚ × ℚ)) :
    ∀ (s : RollingKalmanFilter) (w : ℕ) (d R : ℚ),
      s.window = w → s.delta = d → s.R = R →
      s.spread_history.length + obs.length = w + 1 → obs ≠ [] →
      runRolling s obs = RollingKalmanFilter.reset w d R := by
  induction obs with
  | nil =>
    intro s w d R _ _ _ _ hne
    exact absurd rfl hne
  | cons o rest ih =>
    intro s w d R hw hd hR hlen _
    rw [runRolling]
    rcases rest with _ | ⟨o2, rest2⟩
    · have hl : s.spread_history.length = w := by simpa using hlen
      rw [runRolling, update_reset_fires s o.1 o.2 (by omega), hw, hd, hR]
    · have hrest : ¬ s.window < s.spread_history.length + 1 := by
        simp only [List.length_cons] at hlen
        omega
      refine ih _ w d R ((update_window s o.1 o.2).trans hw)
        ((update_delta s o.1 o.2).trans hd) ((update_R s o.1 o.2).trans hR)
        ?_ (List.cons_ne_nil o2 rest2)
      rw [update_hist_no_reset s o.1 o.2 hrest]
      simp only [List.length_append, List.length_singleton, List.length_cons,
        List.length_nil] at hlen ⊢
      omega

/-- C1 (amended): after exactly `window + 1` updates from a fresh state,
the rolling filter's internal state (beta, covariance and the residual
history) equals the freshly `reset()` state - the `(window+1)`-th update
appends its residual, overflows the buffer and wipes everything, including
that update's own effect. -/
theorem C1_window_rollover_state (w : ℕ) (d R : ℚ) (obs : List (ℚ × ℚ))
    (hlen : obs.length = w + 1) :
    runRolling (RollingKalmanFilter.reset w d R) obs =
      RollingKalmanFilter.reset w d R := by
  refine runRolling_to_reset obs _ w d R rfl rfl rfl (by simpa [RollingKalmanFilter.reset]) ?_
  intro h
  rw [h] at hlen
  simp at hlen

/-- Witness for C1 at `window = 1` and two observations. -/
theorem C1_witness :
    runRolling (RollingKalmanFilter.reset 1 (1/100000) (1/1000)) [(1, 1), (1, 1)] =
      RollingKalmanFilter.reset 1 (1/100000) (1/1000) :=
  C1_window_rollover_state 1 (1/100000) (1/1000) [(1, 1), (1, 1)] rfl

/-- C1 counterexample: with `window = 1`, the state after `window + 1 = 2`
updates is NOT the state obtained by a fresh `reset()` followed by one
`update()` on the second observation - the latter carries one residual in
its history buffer (and a nonzero beta), the former is wiped clean. -/
theorem C1_counterexample :
    runRolling (RollingKalmanFilter.reset 1 (1/100000) (1/1000)) [(1, 1), (1, 1)] ≠
      (RollingKalmanFilter.update (RollingKalmanFilter.reset 1 (1/100000) (1/1000)) 1 1).1 := by
  intro hEq
  have hist := congrArg RollingKalmanFilter.spread_history hEq
  have hR : (RollingKalmanFilter.update
      (RollingKalmanFilter.reset 1 (1/100000) (1/1000)) 1 1).1.spread_history =
      [1 - Vec2.dot (RollingKalmanFilter.reset 1 (1/100000) (1/1000)).beta ⟨1, 1⟩] := by
    rw [update_hist_no_reset _ 1 1 (by simp [RollingKalmanFilter.reset])]
    simp [RollingKalmanFilter.reset]
  have hL : (runRolling (RollingKalmanFilter.reset 1 (1/100000) (1/1000))
      [(1, 1), (1, 1)]).spread_history = [] := by
    rw [runRolling_to_reset [(1, 1), (1, 1)] _ 1 (1/100000) (1/1000) rfl rfl rfl
      (by simp [RollingKalmanFilter.reset]) (by simp)]
    rfl
  rw [hL, hR] at hist
  simp [RollingKalmanFilter.reset] at hist

/-- C6: neither filter guards the Kalman-gain denominator.  Starting from
`KalmanFilter(R=0)` (resp. `RollingKalmanFilter(delta=0, R=0)`) and feeding
the observation `(y, x) = (1, 1)` twice, the second call's gain denominator
`[1,x] . P . [1,x] + Ve` is exactly `0`, yet `update` returns normally
instead of aborting: python/numpy silently produces `nan` from the `0/0`
division (in this exact-rational embedding the `q / 0 = 0` convention makes
the gain zero, so `beta` passes through unchanged - the conjuncts below
record both the zero denominator and the silent return). -/
theorem C6_zero_denominator_not_guarded :
    (Vec2.dot ⟨1, 1⟩
        (Mat2.matVec (KalmanFilter.update (KalmanFilter.reset (1/100) 0) 1 1).1.P ⟨1, 1⟩) +
      (KalmanFilter.update (KalmanFilter.reset (1/100) 0) 1 1).1.Ve = 0) ∧
    (KalmanFilter.update (KalmanFilter.update (KalmanFilter.reset (1/100) 0) 1 1).1 1 1).1.beta =
      (KalmanFilter.update (KalmanFilter.reset (1/100) 0) 1 1).1.beta ∧
    (Vec2.dot
        (Mat2.vecMat ⟨1, 1⟩
          (Mat2.add (RollingKalmanFilter.update (RollingKalmanFilter.reset 500 0 0) 1 1).1.P
            (RollingKalmanFilter.update (RollingKalmanFilter.reset 500 0 0) 1 1).1.Vw)) ⟨1, 1⟩ +
      (RollingKalmanFilter.update (RollingKalmanFilter.reset 500 0 0) 1 1).1.Ve = 0) ∧
    (RollingKalmanFilter.update
        (RollingKalmanFilter.update (RollingKalmanFilter.reset 500 0 0) 1 1).1 1 1).1.beta =
      (RollingKalmanFilter.update (RollingKalmanFilter.reset 500 0 0) 1 1).1.beta := by
  refine ⟨?_, ?_, ?_, ?_⟩ <;>
    norm_num [KalmanFilter.update, KalmanFilter.reset, RollingKalmanFilter.update,
      RollingKalmanFilter.reset, Vec2.dot, Vec2.smul, Vec2.add, Vec2.outer,
      Mat2.matVec, Mat2.vecMat, Mat2.add, Mat2.sub, Mat2.addScalar, Mat2.smulM,
      Mat2.identity]

/-- C7 counterexample: on an empty trade log the evaluator does not return
a degenerate metrics record - `trade_log["equity"].iloc[0]` raises
`IndexError`, rendered here as `none`. -/
theorem C7_counterexample : evaluate [] 100000 = none := rfl

/-- C7 (amended): the evaluator raises on the empty trade log (see the
counterexample) but returns a well-defined metrics record on every
nonempty trade log. -/
theorem C7_nonempty_defined (log : List TradeLogEntry) (q : ℚ) (h : log ≠ []) :
    (evaluate log q).isSome = true := by
  cases log with
  | nil => exact absurd rfl h
  | cons a t => rfl

/-- Witness for C7 on a one-row trade log. -/
theorem C7_witness :
    (evaluate [⟨Position.flat, 0, 0, 1, 100, 0, 100100, false, false⟩] 1).isSome = true :=
  C7_nonempty_defined _ 1 (List.cons_ne_nil _ _)

/-- Full evaluation of the evaluator on the spec's concrete one-row trade
log (`realized_pnl = 100`, `unrealized_pnl = 0`, `equity = 100100`): total
return `equity.iloc[-1] - equity.iloc[0] = 0`, Sharpe `0` (single row, std
is NaN), max drawdown `0`, one trade, average pnl `100`. -/
lemma evaluate_one_row_100 :
    evaluate [⟨Position.flat, 0, 0, 1, 100, 0, 100100, false, false⟩] 100000 =
      some ⟨0, 0, 0, 1, 100⟩ := by
  norm_num [evaluate, qMean, qSum, sampleVar, cumsumFrom, maxDrawdownOf,
    maxDrawdownAux, List.getLast_singleton]

/-- C8 counterexample: on the one-row trade log with `realized_pnl = 100`,
`unrealized_pnl = 0`, `equity = 100100`, the code's Total Return is NOT
100: it is `equity.iloc[-1] - equity.iloc[0]`, and both entries of a
one-row log coincide, so it is 0. -/
theorem C8_counterexample :
    (evaluate [⟨Position.flat, 0, 0, 1, 100, 0, 100100, false, false⟩] 100000).map
        Metrics.totalReturn ≠ some 100 := by
  rw [evaluate_one_row_100]
  intro h
  simp only [Option.map, Option.bind] at h
  have := Option.some.inj h
  norm_num [Metrics.totalReturn] at this

/-- C8 (amended): on the spec's concrete one-row trade log the evaluator
returns Total Return = 0 (last minus first equity of the log, which
coincide on one row), Number of Trades = 1, and a Sharpe ratio of 0 (the
standard deviation of a single value is NaN in pandas, routing the code
through its zero branch). -/
theorem C8_one_row_metrics :
    evaluate [⟨Position.flat, 0, 0, 1, 100, 0, 100100, false, false⟩] 100000 =
      some ⟨0, 0, 0, 1, 100⟩ :=
  evaluate_one_row_100

/-- Positive semidefiniteness of a 2x2 rational matrix via the standard
criterion for symmetric matrices: symmetry, nonnegative diagonal and
nonnegative determinant. -/
def Mat2.PosSemidef (M : Mat2) : Prop :=
  M.b = M.c ∧ 0 ≤ M.a ∧ 0 ≤ M.d ∧ M.b * M.b ≤ M.a * M.d

instance (M : Mat2) : Decidable M.PosSemidef := by
  unfold Mat2.PosSemidef
  infer_instance

/-- The quadratic form of a PSD 2x2 matrix along the feature direction
`[1, x]` is nonnegative. -/
lemma quad_form_nonneg (a b d x : ℚ) (ha : 0 ≤ a) (hd : 0 ≤ d)
    (hb : b * b ≤ a * d) : 0 ≤ a + 2 * b * x + d * x ^ 2 := by
  rcases ha.eq_or_lt with h0 | hpos
  · have hbb : b * b ≤ 0 := by rw [← h0] at hb; linarith
    have hb0 : b = 0 := mul_self_eq_zero.mp (le_antisymm hbb (mul_self_nonneg b))
    rw [← h0, hb0]
    have := mul_nonneg hd (sq_nonneg x)
    linarith
  · nlinarith [sq_nonneg (a + b * x), mul_nonneg (sub_nonneg.2 hb) (sq_nonneg x)]

/-- Trace bound for a PSD 2x2 matrix: `2b ≤ a + d`. -/
lemma trace_ge (a b d : ℚ) (ha : 0 ≤ a) (hd : 0 ≤ d) (hb : b * b ≤ a * d) :
    2 * b ≤ a + d := by
  nlinarith [sq_nonneg (a - d), sq_nonneg (a + d), mul_nonneg ha hd, sq_nonneg b]

/-- The PSD criterion is closed under matrix addition. -/
lemma psd_add (M N : Mat2) (hM : M.PosSemidef) (hN : N.PosSemidef) :
    (Mat2.add M N).PosSemidef := by
  obtain ⟨hMc, hMa, hMd, hMb⟩ := hM
  obtain ⟨hNc, hNa, hNd, hNb⟩ := hN
  refine ⟨by rw [Mat2.add, hMc, hNc], add_nonneg hMa hNa, add_nonneg hMd hNd, ?_⟩
  show (M.b + N.b) * (M.b + N.b) ≤ (M.a + N.a) * (M.d + N.d)
  have hcross : 2 * (M.b * N.b) ≤ M.a * N.d + N.a * M.d := by
    rcases le_or_lt (M.b * N.b) 0 with hneg | hpos
    · have := mul_nonneg hMa hNd
      have := mul_nonneg hNa hMd
      linarith
    · have h4 : (M.b * M.b) * (N.b * N.b) ≤ (M.a * M.d) * (N.a * N.d) :=
        mul_le_mul hMb hNb (mul_self_nonneg N.b) (mul_nonneg hMa hMd)
      nlinarith [sq_nonneg (M.a * N.d - N.a * M.d), mul_nonneg hMa hNd,
        mul_nonneg hNa hMd]
  nlinarith [hMb, hNb]

/-- Core PSD-preservation step shared by the rolling update: subtracting
the gain correction `outer(P.[1,x], [1,x].P) / (q + e)` from a PSD matrix
with `q` its quadratic form along `[1,x]` and `e ≥ 0` the measurement
noise keeps it PSD (with the `q + e = 0` degenerate division following the
rational `q / 0 = 0` convention). -/
lemma psd_gain_step (a b d x e : ℚ) (ha : 0 ≤ a) (hd : 0 ≤ d)
    (hb : b * b ≤ a * d) (he : 0 ≤ e) :
    Mat2.PosSemidef
      ⟨a - (a + b * x) * (a + b * x) / (a + 2 * b * x + d * x ^ 2 + e),
       b - (a + b * x) * (b + d * x) / (a + 2 * b * x + d * x ^ 2 + e),
       b - (b + d * x) * (a + b * x) / (a + 2 * b * x + d * x ^ 2 + e),
       d - (b + d * x) * (b + d * x) / (a + 2 * b * x + d * x ^ 2 + e)⟩ := by
  have hq : 0 ≤ a + 2 * b * x + d * x ^ 2 := quad_form_nonneg a b d x ha hd hb
  set D := a + 2 * b * x + d * x ^ 2 + e with hDdef
  rcases eq_or_ne D 0 with hD | hD
  · refine ⟨?_, ?_, ?_, ?_⟩ <;> simp only [hD, div_zero, sub_zero]
    · exact ha
    · exact hd
    · exact hb
  · have hDpos : 0 < D := lt_of_le_of_ne (by rw [hDdef]; linarith) (Ne.symm hD)
    have ea : a - (a + b * x) * (a + b * x) / D =
        (a * D - (a + b * x) * (a + b * x)) / D := by field_simp
    have eb : b - (a + b * x) * (b + d * x) / D =
        (b * D - (a + b * x) * (b + d * x)) / D := by field_simp
    have ed : d - (b + d * x) * (b + d * x) / D =
        (d * D - (b + d * x) * (b + d * x)) / D := by field_simp
    have hna : 0 ≤ a * D - (a + b * x) * (a + b * x) := by
      have key : a * D - (a + b * x) * (a + b * x) =
          (a * d - b * b) * x ^ 2 + a * e := by rw [hDdef]; ring
      rw [key]
      have h1 : 0 ≤ (a * d - b * b) * x ^ 2 :=
        mul_nonneg (by linarith) (sq_nonneg x)
      have h2 : 0 ≤ a * e := mul_nonneg ha he
      linarith
    have hnd : 0 ≤ d * D - (b + d * x) * (b + d * x) := by
      have key : d * D - (b + d * x) * (b + d * x) =
          (a * d - b * b) + d * e := by rw [hDdef]; ring
      rw [key]
      have h2 : 0 ≤ d * e := mul_nonneg hd he
      linarith
    refine ⟨by ring, ?_, ?_, ?_⟩
    · rw [ea]
      exact div_nonneg hna hDpos.le
    · rw [ed]
      exact div_nonneg hnd hDpos.le
    · show (b - (a + b * x) * (b + d * x) / D) * (b - (a + b * x) * (b + d * x) / D) ≤
        (a - (a + b * x) * (a + b * x) / D) * (d - (b + d * x) * (b + d * x) / D)
      rw [ea, eb, ed, div_mul_div_comm, div_mul_div_comm]
      have hDD : (0 : ℚ) < D * D := mul_pos hDpos hDpos
      rw [div_le_div_iff hDD hDD]
      have hG : (a * D - (a + b * x) * (a + b * x)) *
            (d * D - (b + d * x) * (b + d * x)) -
          (b * D - (a + b * x) * (b + d * x)) *
            (b * D - (a + b * x) * (b + d * x)) =
          D * ((a * d - b * b) * e) := by rw [hDdef]; ring
      have hGn : 0 ≤ D * ((a * d - b * b) * e) :=
        mul_nonneg hDpos.le (mul_nonneg (by linarith) he)
      nlinarith [hG, hGn, hDD]

/-- Core PSD-preservation step of the continuous update: the gain
correction uses denominator `q + r`, and the measurement noise `r` is then
broadcast onto every entry of the corrected matrix; PSD is preserved for
`r ≥ 0`. -/
lemma psd_gain_step_fold (a b d x r : ℚ) (ha : 0 ≤ a) (hd : 0 ≤ d)
    (hb : b * b ≤ a * d) (hr : 0 ≤ r) :
    Mat2.PosSemidef
      ⟨a - (a + b * x) * (a + b * x) / (a + 2 * b * x + d * x ^ 2 + r) + r,
       b - (a + b * x) * (b + d * x) / (a + 2 * b * x + d * x ^ 2 + r) + r,
       b - (b + d * x) * (a + b * x) / (a + 2 * b * x + d * x ^ 2 + r) + r,
       d - (b + d * x) * (b + d * x) / (a + 2 * b * x + d * x ^ 2 + r) + r⟩ := by
  have hq : 0 ≤ a + 2 * b * x + d * x ^ 2 := quad_form_nonneg a b d x ha hd hb
  set D := a + 2 * b * x + d * x ^ 2 + r with hDdef
  rcases eq_or_ne D 0 with hD | hD
  · have hr0 : r = 0 := by
      have : a + 2 * b * x + d * x ^ 2 + r = 0 := by rw [← hDdef]; exact hD
      linarith
    refine ⟨?_, ?_, ?_, ?_⟩ <;> simp only [hD, div_zero, sub_zero, hr0, add_zero]
    · exact ha
    · exact hd
    · exact hb
  · have hDpos : 0 < D := lt_of_le_of_ne (by rw [hDdef]; linarith) (Ne.symm hD)
    have ea : a - (a + b * x) * (a + b * x) / D + r =
        ((a + r) * D - (a + b * x) * (a + b * x)) / D := by field_simp; ring
    have eb : b - (a + b * x) * (b + d * x) / D + r =
        ((b + r) * D - (a + b * x) * (b + d * x)) / D := by field_simp; ring
    have ed : d - (b + d * x) * (b + d * x) / D + r =
        ((d + r) * D - (b + d * x) * (b + d * x)) / D := by field_simp; ring
    have hna : 0 ≤ (a + r) * D - (a + b * x) * (a + b * x) := by
      have key : (a + r) * D - (a + b * x) * (a + b * x) =
          (a * d - b * b) * x ^ 2 + r * (a + (a + 2 * b * x + d * x ^ 2)) + r * r := by
        rw [hDdef]; ring
      rw [key]
      have h1 : 0 ≤ (a * d - b * b) * x ^ 2 :=
        mul_nonneg (by linarith) (sq_nonneg x)
      have h2 : 0 ≤ r * (a + (a + 2 * b * x + d * x ^ 2)) :=
        mul_nonneg hr (by linarith)
      have h3 : 0 ≤ r * r := mul_self_nonneg r
      linarith
    have hnd : 0 ≤ (d + r) * D - (b + d * x) * (b + d * x) := by
      have key : (d + r) * D - (b + d * x) * (b + d * x) =
          (a * d - b * b) + r * (d + (a + 2 * b * x + d * x ^ 2)) + r * r := by
        rw [hDdef]; ring
      rw [key]
      have h2 : 0 ≤ r * (d + (a + 2 * b * x + d * x ^ 2)) :=
        mul_nonneg hr (by linarith)
      have h3 : 0 ≤ r * r := mul_self_nonneg r
      linarith
    refine ⟨by ring, ?_, ?_, ?_⟩
    · rw [ea]
      exact div_nonneg hna hDpos.le
    · rw [ed]
      exact div_nonneg hnd hDpos.le
    · show (b - (a + b * x) * (b + d * x) / D + r) *
          (b - (a + b * x) * (b + d * x) / D + r) ≤
        (a - (a + b * x) * (a + b * x) / D + r) *
          (d - (b + d * x) * (b + d * x) / D + r)
      rw [ea, eb, ed, div_mul_div_comm, div_mul_div_comm]
      have hDD : (0 : ℚ) < D * D := mul_pos hDpos hDpos
      rw [div_le_div_iff hDD hDD]
      have hG : ((a + r) * D - (a + b * x) * (a + b * x)) *
            ((d + r) * D - (b + d * x) * (b + d * x)) -
          ((b + r) * D - (a + b * x) * (b + d * x)) *
            ((b + r) * D - (a + b * x) * (b + d * x)) =
          D * (r * ((a * d - b * b) * (1 + (x + 1) ^ 2) + (a + d - 2 * b) * r)) := by
        rw [hDdef]; ring
      have ht : 2 * b ≤ a + d := trace_ge a b d ha hd hb
      have hH : 0 ≤ (a * d - b * b) * (1 + (x + 1) ^ 2) + (a + d - 2 * b) * r := by
        have h1 : 0 ≤ (a * d - b * b) * (1 + (x + 1) ^ 2) :=
          mul_nonneg (by linarith) (by positivity)
        have h2 : 0 ≤ (a + d - 2 * b) * r := mul_nonneg (by linarith) hr
        linarith
      have hGn : 0 ≤ D * (r * ((a * d - b * b) * (1 + (x + 1) ^ 2) +
          (a + d - 2 * b) * r)) :=
        mul_nonneg hDpos.le (mul_nonneg hr hH)
      nlinarith [hG, hGn, hDD]

/-- The continuous update preserves the PSD criterion of the covariance
(`Ve = R` holds in every reset-reachable state, `R` nonnegative). -/
lemma kalman_update_psd (s : KalmanFilter) (y x : ℚ) (hP : s.P.PosSemidef)
    (hVe : s.Ve = s.R) (hR : 0 ≤ s.R) :
    (KalmanFilter.update s y x).1.P.PosSemidef := by
  obtain ⟨hbc, ha, hd, hb⟩ := hP
  have key := psd_gain_step_fold s.P.a s.P.b s.P.d x s.R ha hd hb hR
  have hM : (KalmanFilter.update s y x).1.P =
      ⟨s.P.a - (s.P.a + s.P.b * x) * (s.P.a + s.P.b * x) /
          (s.P.a + 2 * s.P.b * x + s.P.d * x ^ 2 + s.R) + s.R,
        s.P.b - (s.P.a + s.P.b * x) * (s.P.b + s.P.d * x) /
          (s.P.a + 2 * s.P.b * x + s.P.d * x ^ 2 + s.R) + s.R,
        s.P.b - (s.P.b + s.P.d * x) * (s.P.a + s.P.b * x) /
          (s.P.a + 2 * s.P.b * x + s.P.d * x ^ 2 + s.R) + s.R,
        s.P.d - (s.P.b + s.P.d * x) * (s.P.b + s.P.d * x) /
          (s.P.a + 2 * s.P.b * x + s.P.d * x ^ 2 + s.R) + s.R⟩ := by
    simp only [KalmanFilter.update, Mat2.matVec, Vec2.dot, Vec2.smul,
      Mat2.vecMat, Vec2.outer, Mat2.sub, Mat2.addScalar, Mat2.mk.injEq]
    refine ⟨?_, ?_, ?_, ?_⟩ <;> rw [← hbc, hVe] <;> ring
  rw [hM]
  exact key

/-- The rolling update preserves the PSD criterion of the covariance: the
predict step adds the PSD process noise `Vw`, the measurement step applies
the gain correction with `Ve ≥ 0`, and a window rollover resets the
covariance to the identity. -/
lemma rolling_update_psd (s : RollingKalmanFilter) (y x : ℚ)
    (hP : s.P.PosSemidef) (hVw : s.Vw.PosSemidef) (hVe : 0 ≤ s.Ve) :
    (RollingKalmanFilter.update s y x).1.P.PosSemidef := by
  have hP1 := psd_add s.P s.Vw hP hVw
  obtain ⟨hbc, ha, hd, hb⟩ := hP1
  rw [RollingKalmanFilter.update]
  split
  · refine ⟨rfl, ?_, ?_, ?_⟩ <;>
      norm_num [RollingKalmanFilter.reset, Mat2.identity]
  · show Mat2.PosSemidef (Mat2.sub (Mat2.add s.P s.Vw) _)
    have key := psd_gain_step (Mat2.add s.P s.Vw).a (Mat2.add s.P s.Vw).b
      (Mat2.add s.P s.Vw).d x s.Ve ha hd hb hVe
    have hM : Mat2.sub (Mat2.add s.P s.Vw)
        (Vec2.outer
          (Vec2.smul
            (1 / (Vec2.dot (Mat2.vecMat ⟨1, x⟩ (Mat2.add s.P s.Vw)) ⟨1, x⟩ + s.Ve))
            (Mat2.matVec (Mat2.add s.P s.Vw) ⟨1, x⟩))
          (Mat2.vecMat ⟨1, x⟩ (Mat2.add s.P s.Vw))) =
        ⟨(Mat2.add s.P s.Vw).a -
            ((Mat2.add s.P s.Vw).a + (Mat2.add s.P s.Vw).b * x) *
              ((Mat2.add s.P s.Vw).a + (Mat2.add s.P s.Vw).b * x) /
              ((Mat2.add s.P s.Vw).a + 2 * (Mat2.add s.P s.Vw).b * x +
                (Mat2.add s.P s.Vw).d * x ^ 2 + s.Ve),
          (Mat2.add s.P s.Vw).b -
            ((Mat2.add s.P s.Vw).a + (Mat2.add s.P s.Vw).b * x) *
              ((Mat2.add s.P s.Vw).b + (Mat2.add s.P s.Vw).d * x) /
              ((Mat2.add s.P s.Vw).a + 2 * (Mat2.add s.P s.Vw).b * x +
                (Mat2.add s.P s.Vw).d * x ^ 2 + s.Ve),
          (Mat2.add s.P s.Vw).b -
            ((Mat2.add s.P s.Vw).b + (Mat2.add s.P s.Vw).d * x) *
              ((Mat2.add s.P s.Vw).a + (Mat2.add s.P s.Vw).b * x) /
              ((Mat2.add s.P s.Vw).a + 2 * (Mat2.add s.P s.Vw).b * x +
                (Mat2.add s.P s.Vw).d * x ^ 2 + s.Ve),
          (Mat2.add s.P s.Vw).d -
            ((Mat2.add s.P s.Vw).b + (Mat2.add s.P s.Vw).d * x) *
              ((Mat2.add s.P s.Vw).b + (Mat2.add s.P s.Vw).d * x) /
              ((Mat2.add s.P s.Vw).a + 2 * (Mat2.add s.P s.Vw).b * x +
                (Mat2.add s.P s.Vw).d * x ^ 2 + s.Ve)⟩ := by
      simp only [Mat2.matVec, Vec2.dot, Vec2.smul, Mat2.vecMat, Vec2.outer,
        Mat2.sub, Mat2.mk.injEq]
      refine ⟨?_, ?_, ?_, ?_⟩ <;> rw [← hbc] <;> ring
    rw [hM]
    exact key

/-- C9: for both estimator variants, if the covariance is (symmetric)
positive semidefinite before an `update(y, x)` call and the measurement
noise is nonnegative (with `Ve = R` for the continuous variant, as holds
in every reset-constructed state, and a PSD process-noise matrix for the
rolling variant, as produced by `reset` for any `0 ≤ delta < 1`), then the
covariance is positive semidefinite after the call, for every observation. -/
theorem C9_covariance_stays_psd (s : KalmanFilter) (t : RollingKalmanFilter)
    (y x y2 x2 : ℚ) (hP : s.P.PosSemidef) (hVe : s.Ve = s.R) (hR : 0 ≤ s.R)
    (hPt : t.P.PosSemidef) (hVw : t.Vw.PosSemidef) (hVet : 0 ≤ t.Ve) :
    (KalmanFilter.update s y x).1.P.PosSemidef ∧
    (RollingKalmanFilter.update t y2 x2).1.P.PosSemidef :=
  ⟨kalman_update_psd s y x hP hVe hR, rolling_update_psd t y2 x2 hPt hVw hVet⟩

/-- Witness for C9 at the default-parameter reset states with observation
`(y, x) = (2, 3)`. -/
theorem C9_witness :
    (KalmanFilter.update (KalmanFilter.reset (1/100) (1/1000)) 2 3).1.P.PosSemidef ∧
    (RollingKalmanFilter.update
      (RollingKalmanFilter.reset 500 (1/100000) (1/1000)) 2 3).1.P.PosSemidef :=
  C9_covariance_stays_psd (KalmanFilter.reset (1/100) (1/1000))
    (RollingKalmanFilter.reset 500 (1/100000) (1/1000)) 2 3 2 3
    (by norm_num [KalmanFilter.reset, Mat2.identity, Mat2.PosSemidef]) rfl
    (by norm_num [KalmanFilter.reset])
    (by norm_num [RollingKalmanFilter.reset, Mat2.identity, Mat2.PosSemidef])
    (by norm_num [RollingKalmanFilter.reset, Mat2.identity, Mat2.smulM,
      Mat2.PosSemidef])
    (by norm_num [RollingKalmanFilter.reset])

end KalmanRepo
